import Mathlib

/-!
Verification of the whitebase esoteric-language infrastructure library.

This file gives a shallow embedding of the library's core: the 24-variant
instruction IR (src/ir.rs, src/syntax/mod.rs), the bytecode codec
(src/bytecode.rs), the stack/heap virtual machine (src/machine.rs), the
Whitespace front-end and back-end (src/syntax/whitespace.rs) and the
Brainfuck front-end (src/syntax/brainfuck.rs), together with theorems
settling the specification claims about them.

Modelling conventions:
  machine integers i64 are modelled as Int with explicit reduction modulo
  2^64 where the Rust code can overflow (the code targets 2014 Rust, where
  integer overflow wrapped silently);
  byte streams are List Nat (each entry < 256 for well-formed streams) with
  an explicit cursor position;
  fallible operations return Except/Option values;
  a Rust panic (a failed unwrap, which aborts the process without returning
  a MachineError) is modelled as the value none of an Option type;
  an I/O error of kind EndOfFile is produced both by a read at end of
  stream and by a partial operand read, matching the behaviour of the Rust
  standard library readers the code uses.
-/

namespace Whitebase

/-- The IR: a closed sum of 24 instruction variants (src/ir.rs and the
identical enum in src/syntax/mod.rs). Operand-bearing variants carry a
signed 64-bit integer, modelled as Int. -/
inductive Instruction
  | WBPush (n : Int)
  | WBDuplicate
  | WBCopy (n : Int)
  | WBSwap
  | WBDiscard
  | WBSlide (n : Int)
  | WBAddition
  | WBSubtraction
  | WBMultiplication
  | WBDivision
  | WBModulo
  | WBStore
  | WBRetrieve
  | WBMark (n : Int)
  | WBCall (n : Int)
  | WBJump (n : Int)
  | WBJumpIfZero (n : Int)
  | WBJumpIfNegative (n : Int)
  | WBReturn
  | WBExit
  | WBPutCharactor
  | WBPutNumber
  | WBGetCharactor
  | WBGetNumber
deriving DecidableEq, Repr

open Instruction

/-! Opcode assignment (src/bytecode.rs lines 10-39): IMP in the high
nibble, operation in the low nibble. -/

def IMP_STACK : Nat      := 0b0011 <<< 4
def IMP_ARITHMETIC : Nat := 0b1000 <<< 4
def IMP_HEAP : Nat       := 0b1010 <<< 4
def IMP_FLOW : Nat       := 0b0111 <<< 4
def IMP_IO : Nat         := 0b1001 <<< 4

def CMD_PUSH : Nat     := IMP_STACK + 0b0011
def CMD_DUP : Nat      := IMP_STACK + 0b0100
def CMD_COPY : Nat     := IMP_STACK + 0b1000
def CMD_SWAP : Nat     := IMP_STACK + 0b0110
def CMD_DISCARD : Nat  := IMP_STACK + 0b0101
def CMD_SLIDE : Nat    := IMP_STACK + 0b1001
def CMD_ADD : Nat      := IMP_ARITHMETIC + 0b0000
def CMD_SUB : Nat      := IMP_ARITHMETIC + 0b0010
def CMD_MUL : Nat      := IMP_ARITHMETIC + 0b0001
def CMD_DIV : Nat      := IMP_ARITHMETIC + 0b1000
def CMD_MOD : Nat      := IMP_ARITHMETIC + 0b1010
def CMD_STORE : Nat    := IMP_HEAP + 0b0011
def CMD_RETRIEVE : Nat := IMP_HEAP + 0b1011
def CMD_MARK : Nat     := IMP_FLOW + 0b0000
def CMD_CALL : Nat     := IMP_FLOW + 0b0010
def CMD_JUMP : Nat     := IMP_FLOW + 0b0001
def CMD_JUMPZ : Nat    := IMP_FLOW + 0b1000
def CMD_JUMPN : Nat    := IMP_FLOW + 0b1010
def CMD_RETURN : Nat   := IMP_FLOW + 0b1001
def CMD_EXIT : Nat     := IMP_FLOW + 0b0101
def CMD_PUTC : Nat     := IMP_IO + 0b0000
def CMD_PUTN : Nat     := IMP_IO + 0b0010
def CMD_GETC : Nat     := IMP_IO + 0b1000
def CMD_GETN : Nat     := IMP_IO + 0b1010

/-- The 24 assigned opcode byte values. -/
def opcodeValues : List Nat :=
  [CMD_PUSH, CMD_DUP, CMD_COPY, CMD_SWAP, CMD_DISCARD, CMD_SLIDE,
   CMD_ADD, CMD_SUB, CMD_MUL, CMD_DIV, CMD_MOD,
   CMD_STORE, CMD_RETRIEVE,
   CMD_MARK, CMD_CALL, CMD_JUMP, CMD_JUMPZ, CMD_JUMPN, CMD_RETURN, CMD_EXIT,
   CMD_PUTC, CMD_PUTN, CMD_GETC, CMD_GETN]

/-! Two's-complement view of i64, and big-endian 8-byte framing
(write_be_i64 / read_be_i64). -/

/-- The u64 bit pattern of an i64 value. -/
def toU64 (n : Int) : Nat := (n % (2 : Int) ^ 64).toNat

/-- The i64 value of a u64 bit pattern. -/
def toI64 (v : Nat) : Int := if v < 2 ^ 63 then (v : Int) else (v : Int) - 2 ^ 64

/-- i64 arithmetic wrap-around (2014 Rust integer overflow wraps). -/
def wrapI64 (n : Int) : Int := toI64 (toU64 n)

/-- The 8 big-endian bytes of a u64 value (write_be_i64). -/
def beBytes8 (v : Nat) : List Nat :=
  [v / 2 ^ 56 % 256, v / 2 ^ 48 % 256, v / 2 ^ 40 % 256, v / 2 ^ 32 % 256,
   v / 2 ^ 24 % 256, v / 2 ^ 16 % 256, v / 2 ^ 8 % 256, v % 256]

/-- Big-endian accumulation of a byte list (read_be_i64's loop). -/
def bytesVal (bs : List Nat) : Nat := bs.foldl (fun a b => a * 256 + b) 0

/-! The bytecode writer (src/bytecode.rs, write_push .. write_getn and the
assemble loop): one opcode byte, followed for the eight operand-bearing
opcodes by the operand's 8 big-endian bytes. -/

/-- Wire form of one instruction (the write_* methods). -/
def encodeInst : Instruction → List Nat
  | WBPush n           => CMD_PUSH :: beBytes8 (toU64 n)
  | WBDuplicate        => [CMD_DUP]
  | WBCopy n           => CMD_COPY :: beBytes8 (toU64 n)
  | WBSwap             => [CMD_SWAP]
  | WBDiscard          => [CMD_DISCARD]
  | WBSlide n          => CMD_SLIDE :: beBytes8 (toU64 n)
  | WBAddition         => [CMD_ADD]
  | WBSubtraction      => [CMD_SUB]
  | WBMultiplication   => [CMD_MUL]
  | WBDivision         => [CMD_DIV]
  | WBModulo           => [CMD_MOD]
  | WBStore            => [CMD_STORE]
  | WBRetrieve         => [CMD_RETRIEVE]
  | WBMark n           => CMD_MARK :: beBytes8 (toU64 n)
  | WBCall n           => CMD_CALL :: beBytes8 (toU64 n)
  | WBJump n           => CMD_JUMP :: beBytes8 (toU64 n)
  | WBJumpIfZero n     => CMD_JUMPZ :: beBytes8 (toU64 n)
  | WBJumpIfNegative n => CMD_JUMPN :: beBytes8 (toU64 n)
  | WBReturn           => [CMD_RETURN]
  | WBExit             => [CMD_EXIT]
  | WBPutCharactor     => [CMD_PUTC]
  | WBPutNumber        => [CMD_PUTN]
  | WBGetCharactor     => [CMD_GETC]
  | WBGetNumber        => [CMD_GETN]

/-- The assemble loop: append each instruction's wire form in order. -/
def assembleAll (S : List Instruction) : List Nat := (S.map encodeInst).flatten

/-- Result of read_inst: one record, end of stream at the opcode byte, or
end of stream inside the 8 operand bytes (both reported by the Rust
readers as an IoError of kind EndOfFile). -/
inductive ReadRes
  | ok (opcode : Nat) (operand : Int) (next : Nat)
  | eof
  | eofPartial
deriving DecidableEq, Repr

/-- Whether read_inst reads an 8-byte operand after this opcode byte
(the explicit disjunction in src/bytecode.rs line 300). -/
def hasOperand (b : Nat) : Bool :=
  b == CMD_PUSH || b == CMD_COPY || b == CMD_SLIDE || b == CMD_MARK ||
  b == CMD_CALL || b == CMD_JUMP || b == CMD_JUMPZ || b == CMD_JUMPN

/-- read_inst on a byte stream at a cursor position: read one opcode byte;
for operand-bearing opcodes read eight further big-endian bytes, otherwise
report operand 0. -/
def readInst (prog : List Nat) (pos : Nat) : ReadRes :=
  if pos < prog.length then
    if hasOperand (prog.getD pos 0) then
      if pos + 9 ≤ prog.length then
        .ok (prog.getD pos 0) (toI64 (bytesVal ((prog.drop (pos + 1)).take 8)))
          (pos + 9)
      else .eofPartial
    else .ok (prog.getD pos 0) 0 (pos + 1)
  else .eof

/-- I/O error kinds distinguished by the code. -/
inductive IoErr
  | endOfFile
  | invalidInput
deriving DecidableEq, Repr

/-- The record-to-IR mapping of Instructions::next and
Decompiler::disassemble: none for an unassigned opcode. -/
def instFromRecord (opcode : Nat) (operand : Int) : Option Instruction :=
  if opcode = CMD_PUSH then some (WBPush operand)
  else if opcode = CMD_DUP then some WBDuplicate
  else if opcode = CMD_COPY then some (WBCopy operand)
  else if opcode = CMD_SWAP then some WBSwap
  else if opcode = CMD_DISCARD then some WBDiscard
  else if opcode = CMD_SLIDE then some (WBSlide operand)
  else if opcode = CMD_ADD then some WBAddition
  else if opcode = CMD_SUB then some WBSubtraction
  else if opcode = CMD_MUL then some WBMultiplication
  else if opcode = CMD_DIV then some WBDivision
  else if opcode = CMD_MOD then some WBModulo
  else if opcode = CMD_STORE then some WBStore
  else if opcode = CMD_RETRIEVE then some WBRetrieve
  else if opcode = CMD_MARK then some (WBMark operand)
  else if opcode = CMD_CALL then some (WBCall operand)
  else if opcode = CMD_JUMP then some (WBJump operand)
  else if opcode = CMD_JUMPZ then some (WBJumpIfZero operand)
  else if opcode = CMD_JUMPN then some (WBJumpIfNegative operand)
  else if opcode = CMD_RETURN then some WBReturn
  else if opcode = CMD_EXIT then some WBExit
  else if opcode = CMD_PUTC then some WBPutCharactor
  else if opcode = CMD_PUTN then some WBPutNumber
  else if opcode = CMD_GETC then some WBGetCharactor
  else if opcode = CMD_GETN then some WBGetNumber
  else none

/-- Instructions::next (src/bytecode.rs lines 241-273): read one record
and map it to IR; none at end of stream (an EndOfFile-kind error), an
invalid-input error for an unassigned opcode. The returned position is
the cursor after the record. -/
def instNext (prog : List Nat) (pos : Nat) :
    Option (Except IoErr (Instruction × Nat)) :=
  match readInst prog pos with
  | .ok op arg next =>
    match instFromRecord op arg with
    | some i => some (.ok (i, next))
    | none => some (.error .invalidInput)
  | .eof => none
  | .eofPartial => none

/-- Decompiler::disassemble (src/syntax/mod.rs lines 100-134): read
records into an IR list until end of stream; an unassigned opcode is an
invalid-input error. Fuel-indexed; any fuel above the remaining byte count
is enough, and the fuel 0 result is never reached from disassembleAll. -/
def disassembleGo : Nat → List Nat → Nat → Except IoErr (List Instruction)
  | 0, _, _ => .error .invalidInput
  | fuel + 1, prog, pos =>
    match readInst prog pos with
    | .ok op arg next =>
      match instFromRecord op arg with
      | some i => (disassembleGo fuel prog next).map (fun rest => i :: rest)
      | none => .error .invalidInput
    | .eof => .ok []
    | .eofPartial => .ok []

def disassembleAll (prog : List Nat) : Except IoErr (List Instruction) :=
  disassembleGo (prog.length + 1) prog 0

/-- The opcode byte an instruction is written with. -/
def opcodeOf : Instruction → Nat
  | WBPush _           => CMD_PUSH
  | WBDuplicate        => CMD_DUP
  | WBCopy _           => CMD_COPY
  | WBSwap             => CMD_SWAP
  | WBDiscard          => CMD_DISCARD
  | WBSlide _          => CMD_SLIDE
  | WBAddition         => CMD_ADD
  | WBSubtraction      => CMD_SUB
  | WBMultiplication   => CMD_MUL
  | WBDivision         => CMD_DIV
  | WBModulo           => CMD_MOD
  | WBStore            => CMD_STORE
  | WBRetrieve         => CMD_RETRIEVE
  | WBMark _           => CMD_MARK
  | WBCall _           => CMD_CALL
  | WBJump _           => CMD_JUMP
  | WBJumpIfZero _     => CMD_JUMPZ
  | WBJumpIfNegative _ => CMD_JUMPN
  | WBReturn           => CMD_RETURN
  | WBExit             => CMD_EXIT
  | WBPutCharactor     => CMD_PUTC
  | WBPutNumber        => CMD_PUTN
  | WBGetCharactor     => CMD_GETC
  | WBGetNumber        => CMD_GETN

/-- The operand an instruction carries (0 for operandless ones, matching
the reader's convention). -/
def operandOf : Instruction → Int
  | WBPush n           => n
  | WBCopy n           => n
  | WBSlide n          => n
  | WBMark n           => n
  | WBCall n           => n
  | WBJump n           => n
  | WBJumpIfZero n     => n
  | WBJumpIfNegative n => n
  | _                  => 0

/-- The instruction's operand is a representable i64 value. -/
def operandOK (i : Instruction) : Prop :=
  -(2 ^ 63) ≤ operandOf i ∧ operandOf i < 2 ^ 63

instance (i : Instruction) : Decidable (operandOK i) := by
  unfold operandOK; infer_instance

/-! Codec lemmas. -/

theorem bytesVal_beBytes8 (v : Nat) (h : v < 2 ^ 64) :
    bytesVal (beBytes8 v) = v := by
  simp only [beBytes8, bytesVal, List.foldl]
  omega

theorem toU64_lt (n : Int) : toU64 n < 2 ^ 64 := by
  unfold toU64
  omega

theorem toI64_toU64 (n : Int) (h1 : -(2 ^ 63) ≤ n) (h2 : n < 2 ^ 63) :
    toI64 (toU64 n) = n := by
  unfold toI64 toU64
  rcases Int.lt_or_le n 0 with h | h
  · have hm : n % (2 : Int) ^ 64 = n + 2 ^ 64 := by omega
    rw [hm]
    have h3 : (((n + 2 ^ 64).toNat : Int)) = n + 2 ^ 64 := by omega
    omega
  · have hm : n % (2 : Int) ^ 64 = n := by omega
    rw [hm]
    have h3 : ((n.toNat : Int)) = n := by omega
    omega

theorem beBytes8_length (v : Nat) : (beBytes8 v).length = 8 := rfl

/-- Reading at the very end of the stream reports end of file. -/
theorem readInst_atEnd (pre : List Nat) : readInst pre pre.length = .eof := by
  unfold readInst
  simp

/-- Reading one record of the wire form of an operand-bearing opcode. -/
theorem readInst_enc_op (c : Nat) (n : Int) (rest : List Nat)
    (hc : hasOperand c = true) :
    readInst (c :: (beBytes8 (toU64 n) ++ rest)) 0 =
      .ok c (toI64 (toU64 n)) 9 := by
  have htake : ((c :: (beBytes8 (toU64 n) ++ rest)).drop 1).take 8 =
      beBytes8 (toU64 n) := by
    have h1 : (c :: (beBytes8 (toU64 n) ++ rest)).drop 1 =
        beBytes8 (toU64 n) ++ rest := rfl
    rw [h1, show (8 : Nat) = (beBytes8 (toU64 n)).length from rfl]
    exact List.take_left _ _
  have hpos : (0 : Nat) < (c :: (beBytes8 (toU64 n) ++ rest)).length := by simp
  have h9 : (0 : Nat) + 9 ≤ (c :: (beBytes8 (toU64 n) ++ rest)).length := by
    simp [beBytes8]
  unfold readInst
  rw [if_pos hpos]
  simp only [List.getD_cons_zero, hc, if_true, if_pos h9, htake,
    bytesVal_beBytes8 _ (toU64_lt n)]

/-- Reading one record of the wire form of an operandless opcode. -/
theorem readInst_enc_nop (c : Nat) (rest : List Nat)
    (hc : hasOperand c = false) :
    readInst (c :: rest) 0 = .ok c 0 1 := by
  unfold readInst
  simp [hc]

/-- Reading the wire form of an instruction yields its opcode and operand
(the operand reduced back to its i64 value). -/
theorem readInst_enc (i : Instruction) (hi : operandOK i) (rest : List Nat) :
    readInst (encodeInst i ++ rest) 0 =
      .ok (opcodeOf i) (operandOf i) (encodeInst i).length := by
  obtain ⟨h1, h2⟩ := hi
  cases i <;>
    simp only [operandOf] at h1 h2 <;>
    simp only [encodeInst, opcodeOf, operandOf, List.cons_append,
      List.nil_append, List.length_cons, List.length_nil, beBytes8_length] <;>
    first
      | rw [readInst_enc_op _ _ _ (by decide), toI64_toU64 _ h1 h2]
      | rw [readInst_enc_nop _ _ (by decide)]

/-- Reading at the end of a prefix sees only the suffix, with the cursor
and the reported next position shifted by the prefix length. -/
theorem readInst_shift_ok (pre post : List Nat) (op : Nat) (arg : Int)
    (next : Nat) (h : readInst post 0 = .ok op arg next) :
    readInst (pre ++ post) pre.length = .ok op arg (pre.length + next) := by
  rcases post with _ | ⟨b, rest⟩
  · unfold readInst at h
    simp at h
  · have hget : (pre ++ b :: rest).getD pre.length 0 = b := by
      rw [List.getD_append_right pre (b :: rest) 0 pre.length le_rfl]
      simp
    have hdrop : (pre ++ b :: rest).drop (pre.length + 1) = rest := by
      rw [List.drop_append 1]
      rfl
    have hlen : (pre ++ b :: rest).length = pre.length + (rest.length + 1) := by
      simp
    have hpos : pre.length < (pre ++ b :: rest).length := by
      rw [hlen]; omega
    have hpos0 : (0 : Nat) < (b :: rest).length := by simp
    rw [readInst, if_pos hpos0, List.getD_cons_zero] at h
    rw [readInst, if_pos hpos, hget, hdrop]
    by_cases hop : hasOperand b
    · rw [if_pos hop] at h ⊢
      by_cases h9 : (0 : Nat) + 9 ≤ (b :: rest).length
      · have h9' : pre.length + 9 ≤ (pre ++ b :: rest).length := by
          rw [hlen]; simp at h9; omega
        rw [if_pos h9] at h
        rw [if_pos h9']
        have hdrop0 : ((b :: rest).drop (0 + 1)).take 8 = rest.take 8 := by simp
        rw [hdrop0] at h
        cases h
        rfl
      · rw [if_neg h9] at h
        exact absurd h (by simp)
    · rw [if_neg hop] at h ⊢
      cases h
      rfl

/-- The reader's record-to-IR mapping inverts the writer. -/
theorem instFromRecord_enc (i : Instruction) :
    instFromRecord (opcodeOf i) (operandOf i) = some i := by
  cases i <;> rfl

/-- Claim C2: for every one of the 24 IR instruction variants (with any
i64 operand where applicable), writing it with the bytecode writer and
then reading one record back with the bytecode reader yields the same
instruction: read(write(i)) == i. -/
theorem bytecode_roundtrip (i : Instruction) (hi : operandOK i) :
    instNext (encodeInst i) 0 = some (.ok (i, (encodeInst i).length)) := by
  have h := readInst_enc i hi []
  rw [List.append_nil] at h
  unfold instNext
  rw [h]
  simp [instFromRecord_enc]

/-- Witness for C2 at the concrete instruction Push(-42). -/
theorem bytecode_roundtrip_witness :
    instNext (encodeInst (WBPush (-42))) 0 =
      some (.ok (WBPush (-42), (encodeInst (WBPush (-42))).length)) :=
  bytecode_roundtrip (WBPush (-42)) (by decide)

/-- Claim C9: an opcode byte that is not one of the 24 assigned opcode
values makes the bytecode reader return an invalid-input error rather
than a decoded record. -/
theorem unknown_opcode_invalid (b : Nat) (rest : List Nat)
    (hb : b < 256) (hmem : b ∉ opcodeValues) :
    instNext (b :: rest) 0 = some (.error .invalidInput) := by
  simp only [opcodeValues, List.mem_cons, List.not_mem_nil, or_false] at hmem
  push_neg at hmem
  obtain ⟨n1, n2, n3, n4, n5, n6, n7, n8, n9, n10, n11, n12, n13, n14,
    n15, n16, n17, n18, n19, n20, n21, n22, n23, n24⟩ := hmem
  have hop : hasOperand b = false := by
    unfold hasOperand
    simp [n1, n3, n6, n14, n15, n16, n17, n18]
  have hread : readInst (b :: rest) 0 = .ok b 0 1 := by
    unfold readInst
    simp [hop]
  have hrec : instFromRecord b 0 = none := by
    unfold instFromRecord
    simp [n1, n2, n3, n4, n5, n6, n7, n8, n9, n10, n11, n12, n13, n14,
      n15, n16, n17, n18, n19, n20, n21, n22, n23, n24]
  unfold instNext
  rw [hread]
  simp [hrec]

/-- Witness for C9 at the concrete unassigned byte 0x00. -/
theorem unknown_opcode_invalid_witness :
    instNext (0 :: []) 0 = some (.error .invalidInput) :=
  unknown_opcode_invalid 0 [] (by decide) (by decide)

/-! The virtual machine (src/machine.rs). The stack is a List Int whose
head is the top (the end of the Rust Vec). Mutation is modelled by
returning the post-state next to the optional error, because the Rust
methods mutate self.stack before an error return. -/

/-- VM error kinds (src/machine.rs lines 13-29). -/
inductive MachineError
  | illegalStackManipulation
  | undefinedLabel
  | zeroDivision
  | callStackEmpty
  | missingExitInstruction
  | machineIoError (kind : IoErr)
  | otherMachineError
deriving DecidableEq, Repr

/-- Insert with replacement, the shared behaviour of the TreeMap heap and
the HashMap label index. -/
def mapInsert {β : Type} : List (Int × β) → Int → β → List (Int × β)
  | [], k, v => [(k, v)]
  | (k', v') :: t, k, v =>
    if k = k' then (k, v) :: t else (k', v') :: mapInsert t k v

def mapFind {β : Type} : List (Int × β) → Int → Option β
  | [], _ => none
  | (k', v) :: t, k => if k = k' then some v else mapFind t k

/-- Machine::copy (lines 105-120): guard the length, pop n values into a
temporary (kept in stack order by unshift), pop the target value, push it
back, push the temporary back, push the value again. The unwrap of the
target pop cannot fail under the guard; it is the none branch. -/
def copy (n : Nat) (s : List Int) : Option (List Int × Option MachineError) :=
  if s.length ≤ n then some (s, some .illegalStackManipulation)
  else
    match s.drop n with
    | [] => none
    | val :: rest => some (val :: (s.take n ++ val :: rest), none)

/-- Machine::swap (lines 122-134); both failing pops leave the earlier
pops done. -/
def swap : List Int → List Int × Option MachineError
  | [] => ([], some .illegalStackManipulation)
  | [_] => ([], some .illegalStackManipulation)
  | x :: y :: rest => (y :: x :: rest, none)

/-- Machine::discard (lines 136-141). -/
def discard : List Int → List Int × Option MachineError
  | [] => ([], some .illegalStackManipulation)
  | _ :: rest => (rest, none)

/-- The slide loop: pop n times, ignoring pops of an empty stack. -/
def popN : Nat → List Int → List Int
  | 0, s => s
  | n + 1, s => popN n s.tail

/-- Machine::slide (lines 143-156): error when the length is below n
(not n+1); otherwise unwrap-pop the top (a panic on an empty stack,
the none branch), pop n times, push the top back. -/
def slide (n : Nat) (s : List Int) : Option (List Int × Option MachineError) :=
  if s.length < n then some (s, some .illegalStackManipulation)
  else
    match s with
    | [] => none
    | top :: rest => some (top :: popN n rest, none)

/-- Machine::calc (lines 158-169): pop x, pop y, push f(x, y). -/
def calcOp (f : Int → Int → Int) : List Int → List Int × Option MachineError
  | [] => ([], some .illegalStackManipulation)
  | [_] => ([], some .illegalStackManipulation)
  | x :: y :: rest => (f x y :: rest, none)

/-- Machine::dcalc (lines 171-183): pop x; if x is zero fail with
ZeroDivision (x stays popped); otherwise pop y and push divf(x, y). -/
def dcalc (divf : Int → Int → Int) : List Int → List Int × Option MachineError
  | [] => ([], some .illegalStackManipulation)
  | x :: s1 =>
    if x = 0 then (s1, some .zeroDivision)
    else
      match s1 with
      | [] => ([], some .illegalStackManipulation)
      | y :: rest => (divf x y :: rest, none)

/-- Machine::store (lines 185-196): pop value, pop address, write
heap[address] = value. -/
def store (s : List Int) (h : List (Int × Int)) :
    (List Int × List (Int × Int)) × Option MachineError :=
  match s with
  | [] => (([], h), some .illegalStackManipulation)
  | [_] => (([], h), some .illegalStackManipulation)
  | val :: addr :: rest => ((rest, mapInsert h addr val), none)

/-- Machine::retrieve (lines 198-209): pop address, push heap[address]
with 0 for an absent address. -/
def retrieve (s : List Int) (h : List (Int × Int)) :
    List Int × Option MachineError :=
  match s with
  | [] => ([], some .illegalStackManipulation)
  | addr :: rest => ((mapFind h addr).getD 0 :: rest, none)

/-- Machine::put_char (lines 276-287): pop x; negative fails with
IllegalStackManipulation; otherwise x.to_u8().unwrap() as char, which
panics (none) when x exceeds 255 because to_u8 is range-checked. -/
def putChar (s : List Int) :
    Option (List Int × Option Char × Option MachineError) :=
  match s with
  | [] => some ([], none, some .illegalStackManipulation)
  | n :: rest =>
    if 0 ≤ n then
      if n ≤ 255 then some (rest, some (Char.ofNat n.toNat), none)
      else none
    else some (rest, none, some .illegalStackManipulation)

/-- Decimal digits of a natural number, most significant first.
Fuel-indexed with any fuel above the number being enough. -/
def natDecCharsGo : Nat → Nat → List Char
  | 0, _ => []
  | fuel + 1, n =>
    if n < 10 then [Char.ofNat (48 + n)]
    else natDecCharsGo fuel (n / 10) ++ [Char.ofNat (48 + n % 10)]

def natDecChars (n : Nat) : List Char := natDecCharsGo (n + 1) n

/-- The text the Rust Display implementation writes for an i64 value. -/
def intDecChars (n : Int) : List Char :=
  if n < 0 then '-' :: natDecChars n.natAbs else natDecChars n.toNat

/-- Machine::put_num (lines 289-299): pop x and write its decimal form. -/
def putNum (s : List Int) : List Int × List Char × Option MachineError :=
  match s with
  | [] => ([], [], some .illegalStackManipulation)
  | n :: rest => (rest, intDecChars n, none)

/-- One line of input: the characters up to and including the first line
feed, or all remaining characters. -/
def splitLine : List Char → List Char × List Char
  | [] => ([], [])
  | c :: rest =>
    if c = '\n' then ([c], rest)
    else
      let p := splitLine rest
      (c :: p.1, p.2)

def isDigitCh (c : Char) : Bool := 48 ≤ c.toNat && c.toNat ≤ 57

def decVal (ds : List Char) : Nat := ds.foldl (fun a c => a * 10 + (c.toNat - 48)) 0

/-- Model of Rust's signed decimal integer parse used by get_num: an
optional leading minus, then at least one digit, all digits, and a value
representable as i64; anything else (in particular the empty string) is
None. -/
def fromStrDec (s : List Char) : Option Int :=
  match s with
  | '-' :: ds =>
    if !ds.isEmpty && ds.all isDigitCh then
      if decVal ds ≤ 2 ^ 63 then some (-(decVal ds : Int)) else none
    else none
  | ds =>
    if !ds.isEmpty && ds.all isDigitCh then
      if decVal ds < 2 ^ 63 then some ((decVal ds : Int)) else none
    else none

/-- The VM state: operand stack, sparse heap, remaining input characters,
written output characters, the bytecode reader position, the label index
and the call stack (run's local index and caller). -/
structure MState where
  stack : List Int
  heap : List (Int × Int)
  stdin : List Char
  stdout : List Char
  pos : Nat
  index : List (Int × Nat)
  caller : List Nat
deriving DecidableEq, Repr

/-- Machine::jump's forward scan (lines 237-254): read records from the
current position; at each Mark record index its after-position and stop
when it is the target; end of file is UndefinedLabel. Fuel-indexed; any
fuel above the remaining record count is enough and jump always passes
enough. -/
def jumpScan (prog : List Nat) (label : Int) :
    Nat → List (Int × Nat) → Nat → List (Int × Nat) × Nat × Option MachineError
  | 0, index, pos => (index, pos, some .otherMachineError)
  | fuel + 1, index, pos =>
    match readInst prog pos with
    | .ok op arg next =>
      if op = CMD_MARK then
        if arg = label then (mapInsert index arg next, next, none)
        else jumpScan prog label fuel (mapInsert index arg next) next
      else jumpScan prog label fuel index next
    | .eof => (index, pos, some .undefinedLabel)
    | .eofPartial => (index, prog.length, some .undefinedLabel)

/-- Machine::jump (lines 231-256): on an index hit seek to the stored
offset, otherwise scan forward. Returns the updated index, the reader
position, and the optional error. -/
def jump (prog : List Nat) (index : List (Int × Nat)) (label : Int)
    (pos : Nat) : List (Int × Nat) × Nat × Option MachineError :=
  match mapFind index label with
  | some p => (index, p, none)
  | none => jumpScan prog label (prog.length + 1) index pos

/-- Outcome of one step of the top-level loop. -/
inductive StepKind
  | cont
  | halt
  | fail (e : MachineError)
deriving DecidableEq, Repr

/-- Error-or-continue for an operation result. -/
def resKind : Option MachineError → StepKind
  | none => .cont
  | some e => .fail e

/-- Machine::step (src/machine.rs lines 68-98): read one record, dispatch
on the opcode; end of file is MissingExitInstruction and an unassigned
opcode is OtherMachineError. The to_uint().unwrap() conversions for Copy
and Slide panic (none) on a negative operand. -/
def step (prog : List Nat) (st : MState) : Option (MState × StepKind) :=
  match readInst prog st.pos with
  | .eof => some (st, .fail .missingExitInstruction)
  | .eofPartial => some (st, .fail .missingExitInstruction)
  | .ok op n next =>
    if op = CMD_PUSH then
      some ({ st with stack := n :: st.stack, pos := next }, .cont)
    else if op = CMD_DUP then
      match copy 0 st.stack with
      | none => none
      | some (s', e) => some ({ st with stack := s', pos := next }, resKind e)
    else if op = CMD_COPY then
      if n < 0 then none
      else
        match copy n.toNat st.stack with
        | none => none
        | some (s', e) => some ({ st with stack := s', pos := next }, resKind e)
    else if op = CMD_SWAP then
      let (s', e) := swap st.stack
      some ({ st with stack := s', pos := next }, resKind e)
    else if op = CMD_DISCARD then
      let (s', e) := discard st.stack
      some ({ st with stack := s', pos := next }, resKind e)
    else if op = CMD_SLIDE then
      if n < 0 then none
      else
        match slide n.toNat st.stack with
        | none => none
        | some (s', e) => some ({ st with stack := s', pos := next }, resKind e)
    else if op = CMD_ADD then
      let (s', e) := calcOp (fun x y => wrapI64 (y + x)) st.stack
      some ({ st with stack := s', pos := next }, resKind e)
    else if op = CMD_SUB then
      let (s', e) := calcOp (fun x y => wrapI64 (y - x)) st.stack
      some ({ st with stack := s', pos := next }, resKind e)
    else if op = CMD_MUL then
      let (s', e) := calcOp (fun x y => wrapI64 (y * x)) st.stack
      some ({ st with stack := s', pos := next }, resKind e)
    else if op = CMD_DIV then
      let (s', e) := dcalc (fun x y => wrapI64 (Int.tdiv y x)) st.stack
      some ({ st with stack := s', pos := next }, resKind e)
    else if op = CMD_MOD then
      let (s', e) := dcalc (fun x y => wrapI64 (Int.tmod y x)) st.stack
      some ({ st with stack := s', pos := next }, resKind e)
    else if op = CMD_STORE then
      let (p, e) := store st.stack st.heap
      some ({ st with stack := p.1, heap := p.2, pos := next }, resKind e)
    else if op = CMD_RETRIEVE then
      let (s', e) := retrieve st.stack st.heap
      some ({ st with stack := s', pos := next }, resKind e)
    else if op = CMD_MARK then
      some ({ st with index := mapInsert st.index n next, pos := next }, .cont)
    else if op = CMD_CALL then
      let r := jump prog st.index n next
      some ({ st with caller := next :: st.caller, index := r.1, pos := r.2.1 },
        resKind r.2.2)
    else if op = CMD_JUMP then
      let r := jump prog st.index n next
      some ({ st with index := r.1, pos := r.2.1 }, resKind r.2.2)
    else if op = CMD_JUMPZ then
      match st.stack with
      | [] => some ({ st with pos := next }, .fail .illegalStackManipulation)
      | x :: rest =>
        if x = 0 then
          let r := jump prog st.index n next
          some ({ st with stack := rest, index := r.1, pos := r.2.1 },
            resKind r.2.2)
        else some ({ st with stack := rest, pos := next }, .cont)
    else if op = CMD_JUMPN then
      match st.stack with
      | [] => some ({ st with pos := next }, .fail .illegalStackManipulation)
      | x :: rest =>
        if x < 0 then
          let r := jump prog st.index n next
          some ({ st with stack := rest, index := r.1, pos := r.2.1 },
            resKind r.2.2)
        else some ({ st with stack := rest, pos := next }, .cont)
    else if op = CMD_RETURN then
      match st.caller with
      | [] => some ({ st with pos := next }, .fail .callStackEmpty)
      | p :: crest => some ({ st with caller := crest, pos := p }, .cont)
    else if op = CMD_EXIT then
      some ({ st with pos := next }, .halt)
    else if op = CMD_PUTC then
      match putChar st.stack with
      | none => none
      | some (s', c, e) =>
        let written := match c with | some ch => [ch] | none => []
        some ({ st with stack := s', stdout := st.stdout ++ written,
                        pos := next }, resKind e)
    else if op = CMD_PUTN then
      let (s', cs, e) := putNum st.stack
      some ({ st with stack := s', stdout := st.stdout ++ cs, pos := next },
        resKind e)
    else if op = CMD_GETC then
      match st.stdin with
      | [] => some ({ st with pos := next },
          .fail (.machineIoError .endOfFile))
      | c :: inRest =>
        let (p, e) := store ((c.toNat : Int) :: st.stack) st.heap
        some ({ st with stack := p.1, heap := p.2, stdin := inRest, pos := next },
          resKind e)
    else if op = CMD_GETN then
      match st.stdin with
      | [] => some ({ st with pos := next },
          .fail (.machineIoError .endOfFile))
      | c :: inRest =>
        let (line, remain) := splitLine (c :: inRest)
        match fromStrDec (line.filter (fun ch => !(ch == '\n'))) with
        | none => some ({ st with stdin := remain, pos := next },
            .fail (.machineIoError .invalidInput))
        | some v =>
          let (p, e) := store (v :: st.stack) st.heap
          some ({ st with stack := p.1, heap := p.2, stdin := remain, pos := next },
            resKind e)
    else
      some ({ st with pos := next }, .fail .otherMachineError)

/-- Outcome of Machine::run. -/
inductive RunRes
  | ok
  | err (e : MachineError)
  | fuelOut
deriving DecidableEq, Repr

/-- Machine::run (lines 56-66): step until Exit or the first error.
Fuel-bounded because bytecode programs can loop forever. -/
def runFuel : Nat → List Nat → MState → Option (MState × RunRes)
  | 0, _, st => some (st, .fuelOut)
  | fuel + 1, prog, st =>
    match step prog st with
    | none => none
    | some (st', .halt) => some (st', .ok)
    | some (st', .fail e) => some (st', .err e)
    | some (st', .cont) => runFuel fuel prog st'

/-- A fresh machine on given input: empty stack, heap, output, label index
and call stack, reader at position 0. -/
def initState (inp : List Char) : MState :=
  { stack := [], heap := [], stdin := inp, stdout := [],
    pos := 0, index := [], caller := [] }

/-- Counterexample to claim C1 as stated: on the stack with 0 on top of
the dividend 5, dcalc fails with ZeroDivision but pops the zero divisor,
so the resulting stack [5] is not the original stack [0, 5]. -/
theorem div_zero_stack_cx :
    dcalc (fun x y => wrapI64 (Int.tdiv y x)) [0, 5] =
        ([5], some .zeroDivision) ∧
      ([5] : List Int) ≠ [0, 5] := by
  constructor
  · decide
  · decide

/-- Claim C1 (amended): executing Div or Mod on a machine state whose
stack top is 0 fails with ZeroDivision, pops exactly the zero divisor,
and leaves everything below it (in particular the dividend) unchanged. -/
theorem div_mod_zero_divisor_spec (s : List Int) (h : List (Int × Int))
    (inp out : List Char) (idx : List (Int × Nat)) (cal : List Nat) :
    step (encodeInst WBDivision)
        { stack := 0 :: s, heap := h, stdin := inp, stdout := out,
          pos := 0, index := idx, caller := cal } =
      some ({ stack := s, heap := h, stdin := inp, stdout := out,
              pos := 1, index := idx, caller := cal }, .fail .zeroDivision) ∧
    step (encodeInst WBModulo)
        { stack := 0 :: s, heap := h, stdin := inp, stdout := out,
          pos := 0, index := idx, caller := cal } =
      some ({ stack := s, heap := h, stdin := inp, stdout := out,
              pos := 1, index := idx, caller := cal }, .fail .zeroDivision) := by
  have hr1 : readInst (encodeInst WBDivision) 0 = .ok CMD_DIV 0 1 := by decide
  have hr2 : readInst (encodeInst WBModulo) 0 = .ok CMD_MOD 0 1 := by decide
  constructor <;>
    [(unfold step; rw [hr1]); (unfold step; rw [hr2])] <;>
    simp [IMP_STACK, IMP_ARITHMETIC, IMP_HEAP, IMP_FLOW, IMP_IO,
      CMD_PUSH, CMD_DUP, CMD_COPY, CMD_SWAP, CMD_DISCARD, CMD_SLIDE,
      CMD_ADD, CMD_SUB, CMD_MUL, CMD_DIV, CMD_MOD, CMD_STORE, CMD_RETRIEVE,
      CMD_MARK, CMD_CALL, CMD_JUMP, CMD_JUMPZ, CMD_JUMPN, CMD_RETURN,
      CMD_EXIT, CMD_PUTC, CMD_PUTN, CMD_GETC, CMD_GETN, dcalc, resKind]

theorem popN_eq_drop (n : Nat) : ∀ l : List Int, popN n l = l.drop n := by
  induction n with
  | zero => intro l; rfl
  | succ m ih =>
    intro l
    cases l with
    | nil => rw [popN]; simp [ih]
    | cons a t =>
      rw [popN]
      simp only [List.tail_cons, List.drop_succ_cons]
      exact ih t

/-- Counterexample to claim C5 as stated: Slide(1) on the one-element
stack [5] succeeds with no error, although the claim requires failure with
IllegalStackManipulation whenever the stack has fewer than k+1 elements. -/
theorem slide_boundary_cx :
    slide 1 [5] = some ([5], none) ∧
      some ([5], (none : Option MachineError)) ≠
        some ([5], some MachineError.illegalStackManipulation) := by
  constructor
  · decide
  · decide

/-- Claim C5 (amended): Slide(k) fails with IllegalStackManipulation
exactly when the stack has fewer than k elements (not k+1); otherwise,
on a nonempty stack it keeps the top and drops the k elements below it
(all of them when fewer than k remain), so Slide(k) with stack size k
succeeds; on an empty stack with k = 0 the pop unwrap panics (none).
Slide(0) on a nonempty stack is a no-op preserving the top. -/
theorem slide_spec (k : Nat) (s : List Int) :
    slide k s =
      if s.length < k then some (s, some .illegalStackManipulation)
      else
        match s with
        | [] => none
        | t :: r => some (t :: r.drop k, none) := by
  unfold slide
  by_cases hl : s.length < k
  · rw [if_pos hl, if_pos hl]
  · rw [if_neg hl, if_neg hl]
    cases s with
    | nil => rfl
    | cons t r => simp [popN_eq_drop]

/-- Counterexample to claim C6 as stated: PutChar on stack top 256 does
not succeed writing the character with code 0 (the low 8 bits); the
to_u8 unwrap panics (none). -/
theorem put_char_large_cx :
    putChar [256] = none ∧
      (none : Option (List Int × Option Char × Option MachineError)) ≠
        some ([], some (Char.ofNat 0), none) := by
  constructor
  · decide
  · decide

/-- Claim C6 (amended): PutChar pops x; for 0 ≤ x ≤ 255 it writes the one
character with code x (which equals x's low 8 bits) and succeeds; for
x < 0 it fails with IllegalStackManipulation; for x > 255 the range-checked
to_u8 unwrap panics instead of succeeding. -/
theorem put_char_spec (x : Int) (s : List Int) :
    (0 ≤ x → x ≤ 255 →
      putChar (x :: s) = some (s, some (Char.ofNat x.toNat), none)) ∧
    (x < 0 → putChar (x :: s) = some (s, none, some .illegalStackManipulation)) ∧
    (255 < x → putChar (x :: s) = none) := by
  refine ⟨fun h1 h2 => ?_, fun h1 => ?_, fun h1 => ?_⟩
  · simp [putChar, h1, h2]
  · simp [putChar, show ¬ (0 ≤ x) by omega]
  · simp [putChar, show 0 ≤ x by omega, show ¬ (x ≤ 255) by omega]

/-- Witness for C6's amended claim at x = 65 on the empty stack. -/
theorem put_char_spec_witness :
    putChar ((65 : Int) :: []) = some ([], some 'A', none) :=
  (put_char_spec 65 []).1 (by decide) (by decide)

/-- Claim C10: a well-formed Copy or Slide record with a negative i64
operand makes step panic at to_uint().unwrap() — modelled as the none
result — rather than return any MachineError, so step is not total over
well-formed records. -/
theorem copy_slide_negative_operand_panics (n : Int)
    (hneg : n < 0) (hrange : -(2 ^ 63) ≤ n)
    (stack : List Int) (h : List (Int × Int)) (inp out : List Char)
    (idx : List (Int × Nat)) (cal : List Nat) :
    step (encodeInst (WBCopy n))
        { stack := stack, heap := h, stdin := inp, stdout := out,
          pos := 0, index := idx, caller := cal } = none ∧
    step (encodeInst (WBSlide n))
        { stack := stack, heap := h, stdin := inp, stdout := out,
          pos := 0, index := idx, caller := cal } = none := by
  have hok : operandOK (WBCopy n) := ⟨hrange, by simp only [operandOf]; omega⟩
  have hok2 : operandOK (WBSlide n) := ⟨hrange, by simp only [operandOf]; omega⟩
  have hr1 := readInst_enc (WBCopy n) hok []
  have hr2 := readInst_enc (WBSlide n) hok2 []
  rw [List.append_nil] at hr1 hr2
  simp only [opcodeOf, operandOf] at hr1 hr2
  constructor <;>
    [(unfold step; rw [hr1]); (unfold step; rw [hr2])] <;>
    simp [IMP_STACK, IMP_ARITHMETIC, IMP_HEAP, IMP_FLOW, IMP_IO,
      CMD_PUSH, CMD_DUP, CMD_COPY, CMD_SWAP, CMD_DISCARD, CMD_SLIDE,
      CMD_ADD, CMD_SUB, CMD_MUL, CMD_DIV, CMD_MOD, CMD_STORE, CMD_RETRIEVE,
      CMD_MARK, CMD_CALL, CMD_JUMP, CMD_JUMPZ, CMD_JUMPN, CMD_RETURN,
      CMD_EXIT, CMD_PUTC, CMD_PUTN, CMD_GETC, CMD_GETN, hneg]

/-- Witness for C10 at operand -1 on a fresh machine. -/
theorem copy_slide_negative_operand_panics_witness :
    step (encodeInst (WBCopy (-1))) (initState []) = none ∧
    step (encodeInst (WBSlide (-1))) (initState []) = none :=
  copy_slide_negative_operand_panics (-1) (by decide) (by decide) [] [] [] [] [] []

/-! Claim C3: characterization of Machine::jump. -/

/-- The records readable forward from a position as (opcode, operand,
after-position) triples, with the reader position once the scan stops.
Fuel-indexed like jumpScan, with the same sufficiency bound. -/
def recordsGo (prog : List Nat) : Nat → Nat → List (Nat × Int × Nat) × Nat
  | 0, pos => ([], pos)
  | fuel + 1, pos =>
    match readInst prog pos with
    | .ok op arg next =>
      let p := recordsGo prog fuel next
      ((op, arg, next) :: p.1, p.2)
    | .eof => ([], pos)
    | .eofPartial => ([], prog.length)

def records (prog : List Nat) (pos : Nat) : List (Nat × Int × Nat) × Nat :=
  recordsGo prog (prog.length + 1) pos

/-- Modelled on the spec's words for Jump's forward-scan mode: read
successive records, record every Mark encountered into the label index at
its after-position, and stop as soon as the target label is added,
reporting that position; none when the records run out. -/
def forwardScanSpec (label : Int) :
    List (Nat × Int × Nat) → List (Int × Nat) → List (Int × Nat) × Option Nat
  | [], index => (index, none)
  | (op, arg, after) :: rest, index =>
    if op = CMD_MARK then
      if arg = label then (mapInsert index arg after, some after)
      else forwardScanSpec label rest (mapInsert index arg after)
    else forwardScanSpec label rest index

theorem readInst_ok_bounds (prog : List Nat) (pos op : Nat) (arg : Int)
    (next : Nat) (h : readInst prog pos = .ok op arg next) :
    pos < prog.length ∧ pos < next ∧ next ≤ prog.length + 8 := by
  unfold readInst at h
  by_cases h1 : pos < prog.length
  · rw [if_pos h1] at h
    by_cases h2 : hasOperand (prog.getD pos 0)
    · rw [if_pos h2] at h
      by_cases h3 : pos + 9 ≤ prog.length
      · rw [if_pos h3] at h
        cases h
        omega
      · rw [if_neg h3] at h
        simp at h
    · rw [if_neg h2] at h
      cases h
      omega
  · rw [if_neg h1] at h
    simp at h

/-- The fuel-indexed forward scan agrees with the spec-worded scan over
the record list, for any sufficient fuel. -/
theorem jumpScan_eq_spec (prog : List Nat) (label : Int) :
    ∀ (fuel pos : Nat) (index : List (Int × Nat)),
      prog.length - pos < fuel →
      jumpScan prog label fuel index pos =
        (match forwardScanSpec label (recordsGo prog fuel pos).1 index with
         | (idx', some p) => (idx', p, none)
         | (idx', none) =>
           (idx', (recordsGo prog fuel pos).2, some .undefinedLabel)) := by
  intro fuel
  induction fuel with
  | zero => intro pos index h; omega
  | succ f ih =>
    intro pos index h
    simp only [jumpScan, recordsGo]
    cases hr : readInst prog pos with
    | eof => simp [forwardScanSpec]
    | eofPartial => simp [forwardScanSpec]
    | ok op arg next =>
      obtain ⟨hb1, hb2, _⟩ := readInst_ok_bounds prog pos op arg next hr
      have hf : prog.length - next < f := by omega
      by_cases hmark : op = CMD_MARK
      · by_cases harg : arg = label
        · simp [hmark, harg, forwardScanSpec]
        · simp only [hmark, if_true, harg, if_false, forwardScanSpec]
          rw [ih next (mapInsert index arg next) hf]
      · simp only [hmark, if_false, forwardScanSpec]
        rw [ih next index hf]

/-- Claim C3: Machine::jump with a label already in the index seeks the
reader to the stored offset and changes nothing else; with an absent
label it scans records forward from the current position, recording every
Mark it passes into the index at the position just after that Mark, and
stops (positioned there) as soon as the target is added; if end-of-file
comes first it fails with UndefinedLabel. -/
theorem jump_resolution (prog : List Nat) (index : List (Int × Nat))
    (label : Int) (pos : Nat) :
    jump prog index label pos =
      match mapFind index label with
      | some p => (index, p, none)
      | none =>
        match forwardScanSpec label (records prog pos).1 index with
        | (idx', some p) => (idx', p, none)
        | (idx', none) => (idx', (records prog pos).2, some .undefinedLabel) := by
  unfold jump records
  cases hm : mapFind index label with
  | some p => rfl
  | none => exact jumpScan_eq_spec prog label (prog.length + 1) pos index (by omega)

/-! The Whitespace front-end and back-end (src/syntax/whitespace.rs). -/

/-- Whitespace tokens. -/
inductive WSTok
  | space
  | tab
  | lf
deriving DecidableEq, Repr

/-- The scanner (Scan: keep space, tab and line feed, skip anything else
as comment) fused with the tokenizer (Tokens). -/
def tokOfChar (c : Char) : Option WSTok :=
  if c = ' ' then some .space
  else if c = '\t' then some .tab
  else if c = '\n' then some .lf
  else none

def wsTokens (cs : List Char) : List WSTok := cs.filterMap tokOfChar

/-- Whitespace parser errors. All are IoError values of kind InvalidInput
in the code; invalidInput is the bare standard_error(InvalidInput) (from
the failed number decode and the malformed-Tab-prefix arm), the others
carry their detail message. -/
inductive ParseErr
  | invalidInput
  | noValueTerminator
  | noSign
  | unknownInst (inst : String)
deriving DecidableEq, Repr

/-- Parser state: the label intern table (HashMap<String, i64>, keyed by
the 0/1 digit string of the label) and the incrementing counter, whose
next value starts at 1. -/
structure PState where
  labels : List (List Char × Int)
  cnt : Int
deriving DecidableEq, Repr

def assocFind : List (List Char × Int) → List Char → Option Int
  | [], _ => none
  | (k, v) :: t, key => if key = k then some v else assocFind t key

/-- Parser::parse_value (lines 120-136): read Space as digit 0 and Tab as
digit 1 until a line feed; running out of tokens is the "no value
terminator" error. -/
def parseValue : List WSTok → Except ParseErr (List Char × List WSTok)
  | [] => .error .noValueTerminator
  | .space :: r => (parseValue r).map (fun p => ('0' :: p.1, p.2))
  | .tab :: r => (parseValue r).map (fun p => ('1' :: p.1, p.2))
  | .lf :: r => .ok ([], r)

/-- Parser::parse_sign (lines 138-149): Space is nonnegative, Tab is
negative; a line feed or end of tokens is the "no sign" error. -/
def parseSign : List WSTok → Except ParseErr (Bool × List WSTok)
  | .space :: r => .ok (true, r)
  | .tab :: r => .ok (false, r)
  | _ => .error .noSign

def bitsVal (s : List Char) : Nat :=
  s.foldl (fun a c => a * 2 + (if c = '1' then 1 else 0)) 0

/-- Model of Rust's from_str_radix::<i64>(s, 2): at least one digit, all
digits valid for the radix, and a value representable in i64; the empty
string and an overflowing value give None. This is the behaviour of the
2014 strconv implementation the code was built against (its overflow
detection returns None at the first wrapped accumulation) and of every
later Rust. -/
def fromStrRadix2 (s : List Char) : Option Int :=
  if s.isEmpty then none
  else if s.all (fun c => c == '0' || c == '1') then
    if bitsVal s < 2 ^ 63 then some ((bitsVal s : Nat) : Int) else none
  else none

/-- Parser::parse_number (lines 151-158): sign, then digits, decoded by
from_str_radix; a negative sign applies sign-magnitude negation. -/
def parseNumber (toks : List WSTok) : Except ParseErr (Int × List WSTok) :=
  match parseSign toks with
  | .error e => .error e
  | .ok (positive, r1) =>
    match parseValue r1 with
    | .error e => .error e
    | .ok (value, r2) =>
      match fromStrRadix2 value with
      | some n => .ok (if positive then n else n * -1, r2)
      | none => .error .invalidInput

/-- Parser::parse_label (lines 160-170): read the digit string (no sign)
and intern it, allocating the next counter value on first sight. -/
def parseLabel (toks : List WSTok) (st : PState) :
    Except ParseErr (Int × List WSTok × PState) :=
  match parseValue toks with
  | .error e => .error e
  | .ok (label, r) =>
    match assocFind st.labels label with
    | some v => .ok (v, r, st)
    | none =>
      .ok (st.cnt, r, { labels := (label, st.cnt) :: st.labels, cnt := st.cnt + 1 })

/-- Parser::parse_stack (lines 172-192). -/
def parseStack : List WSTok → PState →
    Except ParseErr (Instruction × List WSTok × PState)
  | .space :: r, st => (parseNumber r).map (fun p => (WBPush p.1, p.2, st))
  | .lf :: .space :: r, st => .ok (WBDuplicate, r, st)
  | .lf :: .tab :: r, st => .ok (WBSwap, r, st)
  | .lf :: .lf :: r, st => .ok (WBDiscard, r, st)
  | .lf :: [], _ => .error (.unknownInst "SN")
  | .tab :: .space :: r, st => (parseNumber r).map (fun p => (WBCopy p.1, p.2, st))
  | .tab :: .lf :: r, st => (parseNumber r).map (fun p => (WBSlide p.1, p.2, st))
  | .tab :: .tab :: _, _ => .error (.unknownInst "STT")
  | .tab :: [], _ => .error (.unknownInst "ST")
  | [], _ => .error (.unknownInst "S")

/-- Parser::parse_arithmetic (lines 194-214). -/
def parseArithmetic : List WSTok → PState →
    Except ParseErr (Instruction × List WSTok × PState)
  | .space :: .space :: r, st => .ok (WBAddition, r, st)
  | .space :: .tab :: r, st => .ok (WBSubtraction, r, st)
  | .space :: .lf :: r, st => .ok (WBMultiplication, r, st)
  | .space :: [], _ => .error (.unknownInst "TSS")
  | .tab :: .space :: r, st => .ok (WBDivision, r, st)
  | .tab :: .tab :: r, st => .ok (WBModulo, r, st)
  | .tab :: .lf :: _, _ => .error (.unknownInst "TSTN")
  | .tab :: [], _ => .error (.unknownInst "TST")
  | .lf :: _, _ => .error (.unknownInst "TSN")
  | [], _ => .error (.unknownInst "TS")

/-- Parser::parse_heap (lines 216-224). -/
def parseHeap : List WSTok → PState →
    Except ParseErr (Instruction × List WSTok × PState)
  | .space :: r, st => .ok (WBStore, r, st)
  | .tab :: r, st => .ok (WBRetrieve, r, st)
  | .lf :: _, _ => .error (.unknownInst "TTN")
  | [], _ => .error (.unknownInst "TT")

/-- Parser::parse_flow (lines 226-252). -/
def parseFlow : List WSTok → PState →
    Except ParseErr (Instruction × List WSTok × PState)
  | .space :: .space :: r, st =>
    (parseLabel r st).map (fun p => (WBMark p.1, p.2.1, p.2.2))
  | .space :: .tab :: r, st =>
    (parseLabel r st).map (fun p => (WBCall p.1, p.2.1, p.2.2))
  | .space :: .lf :: r, st =>
    (parseLabel r st).map (fun p => (WBJump p.1, p.2.1, p.2.2))
  | .space :: [], _ => .error (.unknownInst "NS")
  | .tab :: .space :: r, st =>
    (parseLabel r st).map (fun p => (WBJumpIfZero p.1, p.2.1, p.2.2))
  | .tab :: .tab :: r, st =>
    (parseLabel r st).map (fun p => (WBJumpIfNegative p.1, p.2.1, p.2.2))
  | .tab :: .lf :: r, st => .ok (WBReturn, r, st)
  | .tab :: [], _ => .error (.unknownInst "NT")
  | .lf :: .lf :: r, st => .ok (WBExit, r, st)
  | .lf :: .space :: _, _ => .error (.unknownInst "NNS")
  | .lf :: .tab :: _, _ => .error (.unknownInst "NNT")
  | .lf :: [], _ => .error (.unknownInst "NN")
  | [], _ => .error (.unknownInst "N")

/-- Parser::parse_io (lines 254-274). -/
def parseIoArm : List WSTok → PState →
    Except ParseErr (Instruction × List WSTok × PState)
  | .space :: .space :: r, st => .ok (WBPutCharactor, r, st)
  | .space :: .tab :: r, st => .ok (WBPutNumber, r, st)
  | .space :: .lf :: _, _ => .error (.unknownInst "TNSN")
  | .space :: [], _ => .error (.unknownInst "TNS")
  | .tab :: .space :: r, st => .ok (WBGetCharactor, r, st)
  | .tab :: .tab :: r, st => .ok (WBGetNumber, r, st)
  | .tab :: .lf :: _, _ => .error (.unknownInst "TNTN")
  | .tab :: [], _ => .error (.unknownInst "TNT")
  | .lf :: _, _ => .error (.unknownInst "TNN")
  | [], _ => .error (.unknownInst "TN")

/-- Parser::parse (lines 98-118): loop reading one instruction prefix at
a time until the tokens run out. Fuel-indexed; any fuel above the token
count is enough (each iteration consumes at least one token) and parseWS
always passes enough. -/
def parseGo : Nat → List WSTok → PState → Except ParseErr (List Instruction)
  | 0, _, _ => .error .invalidInput
  | _ + 1, [], _ => .ok []
  | fuel + 1, t :: rest, st =>
    let r :=
      match t with
      | .space => parseStack rest st
      | .tab =>
        match rest with
        | .space :: r2 => parseArithmetic r2 st
        | .tab :: r2 => parseHeap r2 st
        | .lf :: r2 => parseIoArm r2 st
        | [] => .error .invalidInput
      | .lf => parseFlow rest st
    match r with
    | .error e => .error e
    | .ok (inst, rest', st') => (parseGo fuel rest' st').map (fun l => inst :: l)

/-- Whitespace::parse (lines 285-289): scanner, tokenizer and parser on a
fresh state. -/
def parseWS (toks : List WSTok) : Except ParseErr (List Instruction) :=
  parseGo (toks.length + 1) toks { labels := [], cnt := 1 }

/-! The Whitespace decompiler (lines 291-329) and the write_num macro
(lines 13-23). -/

/-- Binary digits of a natural number, most significant first, "0" for
zero (Rust's binary Display). Fuel-indexed with any fuel above the number
being enough. -/
def natToBitsGo : Nat → Nat → List Bool
  | 0, _ => []
  | fuel + 1, n =>
    if n < 2 then [n == 1]
    else natToBitsGo fuel (n / 2) ++ [n % 2 == 1]

def natToBits (n : Nat) : List Bool := natToBitsGo (n + 1) n

/-- Digit characters as the decompiled text writes them after the
replacements 0 to space and 1 to tab. -/
def bitChar (b : Bool) : Char := if b then '\t' else ' '

/-- write_num!'s operand text: sign character (tab for negative via n*-1,
space otherwise), the binary digits of the magnitude as space/tab, and a
line feed. For n = -2^63 the Rust negation wraps to -2^63 and the binary
format shows its u64 bit pattern 2^63, which is again n.natAbs, so
natAbs is the written magnitude for every i64 value. -/
def numText (n : Int) : List Char :=
  (if n < 0 then '\t' else ' ') :: ((natToBits n.natAbs).map bitChar ++ ['\n'])

/-- Whitespace::decompile's per-instruction text (lines 296-321). -/
def genInst : Instruction → List Char
  | WBPush n           => ' ' :: ' ' :: numText n
  | WBDuplicate        => [' ', '\n', ' ']
  | WBCopy n           => ' ' :: '\t' :: ' ' :: numText n
  | WBSwap             => [' ', '\n', '\t']
  | WBDiscard          => [' ', '\n', '\n']
  | WBSlide n          => ' ' :: '\t' :: '\n' :: numText n
  | WBAddition         => ['\t', ' ', ' ', ' ']
  | WBSubtraction      => ['\t', ' ', ' ', '\t']
  | WBMultiplication   => ['\t', ' ', ' ', '\n']
  | WBDivision         => ['\t', ' ', '\t', ' ']
  | WBModulo           => ['\t', ' ', '\t', '\t']
  | WBStore            => ['\t', '\t', ' ']
  | WBRetrieve         => ['\t', '\t', '\t']
  | WBMark n           => '\n' :: ' ' :: ' ' :: numText n
  | WBCall n           => '\n' :: ' ' :: '\t' :: numText n
  | WBJump n           => '\n' :: ' ' :: '\n' :: numText n
  | WBJumpIfZero n     => '\n' :: '\t' :: ' ' :: numText n
  | WBJumpIfNegative n => '\n' :: '\t' :: '\t' :: numText n
  | WBReturn           => ['\n', '\t', '\n']
  | WBExit             => ['\n', '\n', '\n']
  | WBPutCharactor     => ['\t', '\n', ' ', ' ']
  | WBPutNumber        => ['\t', '\n', ' ', '\t']
  | WBGetCharactor     => ['\t', '\n', '\t', ' ']
  | WBGetNumber        => ['\t', '\n', '\t', '\t']

/-- The text Whitespace::decompile writes for an instruction list. -/
def genText (S : List Instruction) : List Char := (S.map genInst).flatten

/-- Whitespace::decompile (lines 292-328): disassemble the bytecode into
an IR list, then write each instruction's text. -/
def decompileText (prog : List Nat) : Except IoErr (List Char) :=
  (disassembleAll prog).map genText

/-! Binary digit lemmas. -/

theorem natToBitsGo_stable (f1 : Nat) :
    ∀ (f2 n : Nat), n < f1 → n < f2 → natToBitsGo f1 n = natToBitsGo f2 n := by
  induction f1 with
  | zero => intro f2 n h1 _; omega
  | succ g ih =>
    intro f2 n h1 h2
    cases f2 with
    | zero => omega
    | succ g2 =>
      simp only [natToBitsGo]
      by_cases hn : n < 2
      · simp [hn]
      · simp only [hn, if_false]
        rw [ih g2 (n / 2) (by omega) (by omega)]

theorem foldl_natToBitsGo (fuel : Nat) :
    ∀ (n a : Nat), n < fuel →
      (natToBitsGo fuel n).foldl (fun x b => x * 2 + (if b then 1 else 0)) a =
        a * 2 ^ (natToBitsGo fuel n).length + n := by
  induction fuel with
  | zero => intro n a h; omega
  | succ f ih =>
    intro n a h
    simp only [natToBitsGo]
    by_cases hn : n < 2
    · simp only [hn, if_true, List.foldl, List.length_cons, List.length_nil]
      have hc : n = 0 ∨ n = 1 := by omega
      rcases hc with hc | hc <;> subst hc <;> simp
    · simp only [hn, if_false]
      rw [List.foldl_append, ih (n / 2) a (by omega)]
      simp only [List.foldl, List.length_append, List.length_cons,
        List.length_nil, Nat.zero_add]
      have hd : (if (n % 2 == 1) = true then 1 else 0) = n % 2 := by
        by_cases hm : n % 2 = 1
        · simp [hm]
        · have hm0 : n % 2 = 0 := by omega
          simp [hm0]
      rw [hd, pow_succ]
      have hs : (a * 2 ^ (natToBitsGo f (n / 2)).length + n / 2) * 2 + n % 2 =
          a * (2 ^ (natToBitsGo f (n / 2)).length * 2) + (n / 2 * 2 + n % 2) := by
        ring
      rw [hs]
      omega

def bitDigit (b : Bool) : Char := if b then '1' else '0'

def bitTok (b : Bool) : WSTok := if b then .tab else .space

theorem bitsVal_natToBits (m : Nat) :
    bitsVal ((natToBits m).map bitDigit) = m := by
  unfold bitsVal natToBits
  rw [List.foldl_map]
  have hfun : (fun (x : Nat) (c : Bool) =>
        x * 2 + (if bitDigit c = '1' then 1 else 0)) =
      (fun (x : Nat) (b : Bool) => x * 2 + (if b then 1 else 0)) := by
    funext x b
    cases b <;> rfl
  rw [hfun, foldl_natToBitsGo (m + 1) m 0 (by omega)]
  simp

theorem natToBits_ne_nil (m : Nat) : natToBits m ≠ [] := by
  unfold natToBits natToBitsGo
  by_cases hm : m < 2
  · simp [hm]
  · simp [hm]

theorem natToBits_inj {a b : Nat} (h : natToBits a = natToBits b) : a = b := by
  have := congrArg (fun l => bitsVal (l.map bitDigit)) h
  simpa [bitsVal_natToBits] using this

/-! Token stream lemmas. -/

theorem wsTokens_space (cs : List Char) :
    wsTokens (' ' :: cs) = .space :: wsTokens cs := rfl

theorem wsTokens_tab (cs : List Char) :
    wsTokens ('\t' :: cs) = .tab :: wsTokens cs := rfl

theorem wsTokens_lf (cs : List Char) :
    wsTokens ('\n' :: cs) = .lf :: wsTokens cs := rfl

theorem wsTokens_bitChars (bs : List Bool) (rest : List Char) :
    wsTokens (bs.map bitChar ++ rest) = bs.map bitTok ++ wsTokens rest := by
  induction bs with
  | nil => rfl
  | cons b t ih =>
    cases b
    · simp only [List.map_cons, List.cons_append, bitChar, if_false,
        Bool.false_eq_true, wsTokens_space, ih, bitTok]
    · simp only [List.map_cons, List.cons_append, bitChar, if_true,
        wsTokens_tab, ih, bitTok]

theorem wsTokens_numText (n : Int) (rest : List Char) :
    wsTokens (numText n ++ rest) =
      (if n < 0 then WSTok.tab else .space) ::
        ((natToBits n.natAbs).map bitTok ++ .lf :: wsTokens rest) := by
  unfold numText
  by_cases hn : n < 0
  · simp only [if_pos hn, List.cons_append, wsTokens_tab, List.append_assoc,
      List.singleton_append, wsTokens_bitChars, wsTokens_lf, List.nil_append]
  · simp only [if_neg hn, List.cons_append, wsTokens_space, List.append_assoc,
      List.singleton_append, wsTokens_bitChars, wsTokens_lf, List.nil_append]

/-! Parsing the generated operand text. -/

theorem parseValue_bits (bs : List Bool) (rest : List WSTok) :
    parseValue (bs.map bitTok ++ .lf :: rest) = .ok (bs.map bitDigit, rest) := by
  induction bs with
  | nil => rfl
  | cons b t ih =>
    cases b <;>
      simp only [List.map_cons, List.cons_append, bitTok, bitDigit,
        if_true, if_false, Bool.false_eq_true, parseValue, List.append_eq,
        ih, Except.map]

theorem fromStrRadix2_bits (m : Nat) (hm : m < 2 ^ 63) :
    fromStrRadix2 ((natToBits m).map bitDigit) = some ((m : Nat) : Int) := by
  unfold fromStrRadix2
  have h1 : ((natToBits m).map bitDigit).isEmpty = false := by
    simp [List.isEmpty_iff, natToBits_ne_nil m]
  have h2 : ((natToBits m).map bitDigit).all
      (fun c => c == '0' || c == '1') = true := by
    apply List.all_eq_true.mpr
    intro c hc
    obtain ⟨b, _, rfl⟩ := List.mem_map.mp hc
    cases b <;> rfl
  rw [h1, h2]
  simp only [Bool.false_eq_true, if_false, if_true]
  rw [bitsVal_natToBits]
  rw [if_pos hm]

theorem parseNumber_tokens (n : Int) (h1 : -(2 ^ 63) < n) (h2 : n < 2 ^ 63)
    (rest : List WSTok) :
    parseNumber ((if n < 0 then WSTok.tab else .space) ::
      ((natToBits n.natAbs).map bitTok ++ .lf :: rest)) = .ok (n, rest) := by
  have habs : n.natAbs < 2 ^ 63 := by omega
  by_cases hn : n < 0
  · rw [if_pos hn]
    simp only [parseNumber, parseSign, parseValue_bits,
      fromStrRadix2_bits n.natAbs habs]
    have hneg : ((n.natAbs : Nat) : Int) * -1 = n := by omega
    rw [if_neg (by simp), hneg]
  · rw [if_neg hn]
    simp only [parseNumber, parseSign, parseValue_bits,
      fromStrRadix2_bits n.natAbs habs]
    have hpos : ((n.natAbs : Nat) : Int) = n := by omega
    simp [hpos]

/-- The digit string a label id is written as and re-interned from: the
sign character read back as a digit, then the magnitude's binary digits. -/
def labelKey (l : Int) : List Char :=
  (if l < 0 then '1' else '0') :: (natToBits l.natAbs).map bitDigit

theorem parseLabel_tokens (l : Int) (st : PState) (rest : List WSTok) :
    parseLabel ((if l < 0 then WSTok.tab else .space) ::
        ((natToBits l.natAbs).map bitTok ++ .lf :: rest)) st =
      match assocFind st.labels (labelKey l) with
      | some v => .ok (v, rest, st)
      | none => .ok (st.cnt, rest,
          { labels := (labelKey l, st.cnt) :: st.labels, cnt := st.cnt + 1 }) := by
  unfold parseLabel labelKey
  by_cases hn : l < 0
  · rw [if_pos hn, if_pos hn,
      show WSTok.tab :: ((natToBits l.natAbs).map bitTok ++ .lf :: rest) =
        ((true :: natToBits l.natAbs).map bitTok ++ .lf :: rest) from rfl,
      parseValue_bits]
    rfl
  · rw [if_neg hn, if_neg hn,
      show WSTok.space :: ((natToBits l.natAbs).map bitTok ++ .lf :: rest) =
        ((false :: natToBits l.natAbs).map bitTok ++ .lf :: rest) from rfl,
      parseValue_bits]
    rfl

theorem map_bitDigit_inj {a b : List Bool} (h : a.map bitDigit = b.map bitDigit) :
    a = b := by
  induction a generalizing b with
  | nil => cases b <;> simp_all
  | cons x t ih =>
    cases b with
    | nil => simp_all
    | cons y s =>
      simp only [List.map_cons, List.cons.injEq] at h
      obtain ⟨hxy, hts⟩ := h
      have : x = y := by
        cases x <;> cases y <;> first | rfl | (exact absurd hxy (by decide))
      rw [this, ih hts]

theorem labelKey_inj {a b : Int} (h : labelKey a = labelKey b) : a = b := by
  unfold labelKey at h
  rw [List.cons.injEq] at h
  obtain ⟨h1, h2⟩ := h
  have hbits : a.natAbs = b.natAbs := natToBits_inj (map_bitDigit_inj h2)
  by_cases ha : a < 0 <;> by_cases hb : b < 0
  · omega
  · rw [if_pos ha, if_neg hb] at h1
    exact absurd h1 (by decide)
  · rw [if_neg ha, if_pos hb] at h1
    exact absurd h1 (by decide)
  · omega

theorem assocFind_map_labelKey (table : List (Int × Int)) (l : Int) :
    assocFind (table.map (fun p => (labelKey p.1, p.2))) (labelKey l) =
      mapFind table l := by
  induction table with
  | nil => rfl
  | cons p t ih =>
    obtain ⟨k, v⟩ := p
    simp only [List.map_cons, assocFind, mapFind]
    by_cases h : l = k
    · rw [if_pos (by rw [h]), if_pos h]
    · rw [if_neg (fun hc => h (labelKey_inj hc)), if_neg h, ih]

/-! Canonical relabelling: labels by identity-assignment order. -/

/-- Relabelling state: seen label values with their assigned ids, and the
next id (counting from 1), mirroring the parser's intern table through
the key encoding. -/
structure RState where
  table : List (Int × Int)
  cnt : Int
deriving DecidableEq, Repr

def relabelLookup (ρ : RState) (l : Int) : Int × RState :=
  match mapFind ρ.table l with
  | some v => (v, ρ)
  | none => (ρ.cnt, { table := (l, ρ.cnt) :: ρ.table, cnt := ρ.cnt + 1 })

def relabelInstr (ρ : RState) : Instruction → Instruction × RState
  | WBMark l => ((relabelLookup ρ l).1 |> WBMark, (relabelLookup ρ l).2)
  | WBCall l => ((relabelLookup ρ l).1 |> WBCall, (relabelLookup ρ l).2)
  | WBJump l => ((relabelLookup ρ l).1 |> WBJump, (relabelLookup ρ l).2)
  | WBJumpIfZero l => ((relabelLookup ρ l).1 |> WBJumpIfZero, (relabelLookup ρ l).2)
  | WBJumpIfNegative l =>
    ((relabelLookup ρ l).1 |> WBJumpIfNegative, (relabelLookup ρ l).2)
  | i => (i, ρ)

def relabelGo : List Instruction → RState → List Instruction
  | [], _ => []
  | i :: rest, ρ =>
    let p := relabelInstr ρ i
    p.1 :: relabelGo rest p.2

/-- An instruction sequence with every label operand (of Mark, Call, Jump,
JumpIfZero, JumpIfNegative) replaced by its identity-assignment-order id:
the k-th distinct label value in order of first appearance becomes k,
counting from 1. -/
def relabelList (S : List Instruction) : List Instruction :=
  relabelGo S { table := [], cnt := 1 }

/-- Operand condition for the text round-trip. A numeric operand (Push,
Copy, Slide) is decoded by from_str_radix on re-parse, so it must lie
strictly inside the i64 range (excluding -2^63, whose sign-magnitude
text carries the unrepresentable magnitude 2^63). A label operand (Mark,
Call, Jump, JumpIfZero, JumpIfNegative) is interned as its digit string
and never decoded, so any representable i64 value round-trips,
-2^63 included. -/
def roundtripOperandOK : Instruction → Prop
  | WBPush n => -(2 ^ 63) < n ∧ n < 2 ^ 63
  | WBCopy n => -(2 ^ 63) < n ∧ n < 2 ^ 63
  | WBSlide n => -(2 ^ 63) < n ∧ n < 2 ^ 63
  | WBMark n => -(2 ^ 63) ≤ n ∧ n < 2 ^ 63
  | WBCall n => -(2 ^ 63) ≤ n ∧ n < 2 ^ 63
  | WBJump n => -(2 ^ 63) ≤ n ∧ n < 2 ^ 63
  | WBJumpIfZero n => -(2 ^ 63) ≤ n ∧ n < 2 ^ 63
  | WBJumpIfNegative n => -(2 ^ 63) ≤ n ∧ n < 2 ^ 63
  | _ => True

instance (i : Instruction) : Decidable (roundtripOperandOK i) := by
  cases i <;> simp only [roundtripOperandOK] <;> infer_instance

theorem roundtrip_to_operandOK (i : Instruction) (h : roundtripOperandOK i) :
    operandOK i := by
  cases i <;> simp only [roundtripOperandOK] at h <;>
    simp only [operandOK, operandOf] <;> omega

/-- Correspondence between the parser's intern table and the relabelling
state. -/
def stInv (σ : PState) (ρ : RState) : Prop :=
  σ.labels = ρ.table.map (fun p => (labelKey p.1, p.2)) ∧ σ.cnt = ρ.cnt

theorem genText_cons (i : Instruction) (S : List Instruction) :
    genText (i :: S) = genInst i ++ genText S := by
  simp [genText]

/-- Parsing the generated text of a sequence yields the sequence with
labels canonically relabelled, for any parser state corresponding to the
relabelling state. -/
theorem parseGo_genText (S : List Instruction) :
    ∀ (fuel : Nat) (σ : PState) (ρ : RState),
      stInv σ ρ → (∀ i ∈ S, roundtripOperandOK i) →
      (wsTokens (genText S)).length < fuel →
      parseGo fuel (wsTokens (genText S)) σ = .ok (relabelGo S ρ) := by
  induction S with
  | nil =>
    intro fuel σ ρ _ _ hf
    cases fuel with
    | zero => omega
    | succ f => rfl
  | cons i rest ih =>
    intro fuel σ ρ hinv hr hf
    have hri : roundtripOperandOK i := hr i (by simp)
    have hrr : ∀ j ∈ rest, roundtripOperandOK j := fun j hj => hr j (by simp [hj])
    rw [genText_cons] at hf ⊢
    cases fuel with
    | zero => omega
    | succ f =>
      cases i with
      | WBPush n =>
        obtain ⟨h1, h2⟩ : -(2 ^ 63) < n ∧ n < 2 ^ 63 := hri
        simp only [genInst, List.cons_append, List.nil_append, wsTokens_space] at hf ⊢
        rw [wsTokens_numText] at hf ⊢
        simp only [List.length_cons, List.length_append] at hf
        simp only [parseGo, parseStack]
        rw [parseNumber_tokens _ h1 h2]
        simp only [Except.map]
        rw [ih f σ ρ hinv hrr (by omega)]
        rfl
      | WBCopy n =>
        obtain ⟨h1, h2⟩ : -(2 ^ 63) < n ∧ n < 2 ^ 63 := hri
        simp only [genInst, List.cons_append, List.nil_append, wsTokens_space, wsTokens_tab] at hf ⊢
        rw [wsTokens_numText] at hf ⊢
        simp only [List.length_cons, List.length_append] at hf
        simp only [parseGo, parseStack]
        rw [parseNumber_tokens _ h1 h2]
        simp only [Except.map]
        rw [ih f σ ρ hinv hrr (by omega)]
        rfl
      | WBSlide n =>
        obtain ⟨h1, h2⟩ : -(2 ^ 63) < n ∧ n < 2 ^ 63 := hri
        simp only [genInst, List.cons_append, List.nil_append, wsTokens_space, wsTokens_tab,
          wsTokens_lf] at hf ⊢
        rw [wsTokens_numText] at hf ⊢
        simp only [List.length_cons, List.length_append] at hf
        simp only [parseGo, parseStack]
        rw [parseNumber_tokens _ h1 h2]
        simp only [Except.map]
        rw [ih f σ ρ hinv hrr (by omega)]
        rfl
      | WBMark l =>
        simp only [genInst, List.cons_append, List.nil_append, wsTokens_lf, wsTokens_space] at hf ⊢
        rw [wsTokens_numText] at hf ⊢
        simp only [List.length_cons, List.length_append] at hf
        simp only [parseGo, parseFlow]
        rw [parseLabel_tokens, hinv.1, assocFind_map_labelKey]
        cases hfind : mapFind ρ.table l with
        | some v =>
          simp only [Except.map]
          rw [ih f σ ρ hinv hrr (by omega)]
          simp [relabelGo, relabelInstr, relabelLookup, hfind]
        | none =>
          simp only [Except.map]
          rw [ih f
            { labels := (labelKey l, σ.cnt) ::
                ρ.table.map (fun p => (labelKey p.1, p.2)), cnt := σ.cnt + 1 }
            { table := (l, ρ.cnt) :: ρ.table, cnt := ρ.cnt + 1 }
            ⟨by simp [hinv.2], by simp [hinv.2]⟩
            hrr (by omega)]
          simp [relabelGo, relabelInstr, relabelLookup, hfind, hinv.2]
      | WBCall l =>
        simp only [genInst, List.cons_append, List.nil_append, wsTokens_lf, wsTokens_space,
          wsTokens_tab] at hf ⊢
        rw [wsTokens_numText] at hf ⊢
        simp only [List.length_cons, List.length_append] at hf
        simp only [parseGo, parseFlow]
        rw [parseLabel_tokens, hinv.1, assocFind_map_labelKey]
        cases hfind : mapFind ρ.table l with
        | some v =>
          simp only [Except.map]
          rw [ih f σ ρ hinv hrr (by omega)]
          simp [relabelGo, relabelInstr, relabelLookup, hfind]
        | none =>
          simp only [Except.map]
          rw [ih f
            { labels := (labelKey l, σ.cnt) ::
                ρ.table.map (fun p => (labelKey p.1, p.2)), cnt := σ.cnt + 1 }
            { table := (l, ρ.cnt) :: ρ.table, cnt := ρ.cnt + 1 }
            ⟨by simp [hinv.2], by simp [hinv.2]⟩
            hrr (by omega)]
          simp [relabelGo, relabelInstr, relabelLookup, hfind, hinv.2]
      | WBJump l =>
        simp only [genInst, List.cons_append, List.nil_append, wsTokens_lf, wsTokens_space] at hf ⊢
        rw [wsTokens_numText] at hf ⊢
        simp only [List.length_cons, List.length_append] at hf
        simp only [parseGo, parseFlow]
        rw [parseLabel_tokens, hinv.1, assocFind_map_labelKey]
        cases hfind : mapFind ρ.table l with
        | some v =>
          simp only [Except.map]
          rw [ih f σ ρ hinv hrr (by omega)]
          simp [relabelGo, relabelInstr, relabelLookup, hfind]
        | none =>
          simp only [Except.map]
          rw [ih f
            { labels := (labelKey l, σ.cnt) ::
                ρ.table.map (fun p => (labelKey p.1, p.2)), cnt := σ.cnt + 1 }
            { table := (l, ρ.cnt) :: ρ.table, cnt := ρ.cnt + 1 }
            ⟨by simp [hinv.2], by simp [hinv.2]⟩
            hrr (by omega)]
          simp [relabelGo, relabelInstr, relabelLookup, hfind, hinv.2]
      | WBJumpIfZero l =>
        simp only [genInst, List.cons_append, List.nil_append, wsTokens_lf, wsTokens_space,
          wsTokens_tab] at hf ⊢
        rw [wsTokens_numText] at hf ⊢
        simp only [List.length_cons, List.length_append] at hf
        simp only [parseGo, parseFlow]
        rw [parseLabel_tokens, hinv.1, assocFind_map_labelKey]
        cases hfind : mapFind ρ.table l with
        | some v =>
          simp only [Except.map]
          rw [ih f σ ρ hinv hrr (by omega)]
          simp [relabelGo, relabelInstr, relabelLookup, hfind]
        | none =>
          simp only [Except.map]
          rw [ih f
            { labels := (labelKey l, σ.cnt) ::
                ρ.table.map (fun p => (labelKey p.1, p.2)), cnt := σ.cnt + 1 }
            { table := (l, ρ.cnt) :: ρ.table, cnt := ρ.cnt + 1 }
            ⟨by simp [hinv.2], by simp [hinv.2]⟩
            hrr (by omega)]
          simp [relabelGo, relabelInstr, relabelLookup, hfind, hinv.2]
      | WBJumpIfNegative l =>
        simp only [genInst, List.cons_append, List.nil_append, wsTokens_lf, wsTokens_tab] at hf ⊢
        rw [wsTokens_numText] at hf ⊢
        simp only [List.length_cons, List.length_append] at hf
        simp only [parseGo, parseFlow]
        rw [parseLabel_tokens, hinv.1, assocFind_map_labelKey]
        cases hfind : mapFind ρ.table l with
        | some v =>
          simp only [Except.map]
          rw [ih f σ ρ hinv hrr (by omega)]
          simp [relabelGo, relabelInstr, relabelLookup, hfind]
        | none =>
          simp only [Except.map]
          rw [ih f
            { labels := (labelKey l, σ.cnt) ::
                ρ.table.map (fun p => (labelKey p.1, p.2)), cnt := σ.cnt + 1 }
            { table := (l, ρ.cnt) :: ρ.table, cnt := ρ.cnt + 1 }
            ⟨by simp [hinv.2], by simp [hinv.2]⟩
            hrr (by omega)]
          simp [relabelGo, relabelInstr, relabelLookup, hfind, hinv.2]
      | WBDuplicate =>
        simp only [genInst, List.cons_append, List.nil_append, wsTokens_space, wsTokens_lf] at hf ⊢
        simp only [List.length_cons] at hf
        simp only [parseGo, parseStack]
        rw [ih f σ ρ hinv hrr (by omega)]
        rfl
      | WBSwap =>
        simp only [genInst, List.cons_append, List.nil_append, wsTokens_space, wsTokens_lf,
          wsTokens_tab] at hf ⊢
        simp only [List.length_cons] at hf
        simp only [parseGo, parseStack]
        rw [ih f σ ρ hinv hrr (by omega)]
        rfl
      | WBDiscard =>
        simp only [genInst, List.cons_append, List.nil_append, wsTokens_space, wsTokens_lf] at hf ⊢
        simp only [List.length_cons] at hf
        simp only [parseGo, parseStack]
        rw [ih f σ ρ hinv hrr (by omega)]
        rfl
      | WBAddition =>
        simp only [genInst, List.cons_append, List.nil_append, wsTokens_tab, wsTokens_space] at hf ⊢
        simp only [List.length_cons] at hf
        simp only [parseGo, parseArithmetic]
        rw [ih f σ ρ hinv hrr (by omega)]
        rfl
      | WBSubtraction =>
        simp only [genInst, List.cons_append, List.nil_append, wsTokens_tab, wsTokens_space] at hf ⊢
        simp only [List.length_cons] at hf
        simp only [parseGo, parseArithmetic]
        rw [ih f σ ρ hinv hrr (by omega)]
        rfl
      | WBMultiplication =>
        simp only [genInst, List.cons_append, List.nil_append, wsTokens_tab, wsTokens_space,
          wsTokens_lf] at hf ⊢
        simp only [List.length_cons] at hf
        simp only [parseGo, parseArithmetic]
        rw [ih f σ ρ hinv hrr (by omega)]
        rfl
      | WBDivision =>
        simp only [genInst, List.cons_append, List.nil_append, wsTokens_tab, wsTokens_space] at hf ⊢
        simp only [List.length_cons] at hf
        simp only [parseGo, parseArithmetic]
        rw [ih f σ ρ hinv hrr (by omega)]
        rfl
      | WBModulo =>
        simp only [genInst, List.cons_append, List.nil_append, wsTokens_tab, wsTokens_space] at hf ⊢
        simp only [List.length_cons] at hf
        simp only [parseGo, parseArithmetic]
        rw [ih f σ ρ hinv hrr (by omega)]
        rfl
      | WBStore =>
        simp only [genInst, List.cons_append, List.nil_append, wsTokens_tab, wsTokens_space] at hf ⊢
        simp only [List.length_cons] at hf
        simp only [parseGo, parseHeap]
        rw [ih f σ ρ hinv hrr (by omega)]
        rfl
      | WBRetrieve =>
        simp only [genInst, List.cons_append, List.nil_append, wsTokens_tab] at hf ⊢
        simp only [List.length_cons] at hf
        simp only [parseGo, parseHeap]
        rw [ih f σ ρ hinv hrr (by omega)]
        rfl
      | WBReturn =>
        simp only [genInst, List.cons_append, List.nil_append, wsTokens_lf, wsTokens_tab] at hf ⊢
        simp only [List.length_cons] at hf
        simp only [parseGo, parseFlow]
        rw [ih f σ ρ hinv hrr (by omega)]
        rfl
      | WBExit =>
        simp only [genInst, List.cons_append, List.nil_append, wsTokens_lf] at hf ⊢
        simp only [List.length_cons] at hf
        simp only [parseGo, parseFlow]
        rw [ih f σ ρ hinv hrr (by omega)]
        rfl
      | WBPutCharactor =>
        simp only [genInst, List.cons_append, List.nil_append, wsTokens_tab, wsTokens_lf,
          wsTokens_space] at hf ⊢
        simp only [List.length_cons] at hf
        simp only [parseGo, parseIoArm]
        rw [ih f σ ρ hinv hrr (by omega)]
        rfl
      | WBPutNumber =>
        simp only [genInst, List.cons_append, List.nil_append, wsTokens_tab, wsTokens_lf,
          wsTokens_space] at hf ⊢
        simp only [List.length_cons] at hf
        simp only [parseGo, parseIoArm]
        rw [ih f σ ρ hinv hrr (by omega)]
        rfl
      | WBGetCharactor =>
        simp only [genInst, List.cons_append, List.nil_append, wsTokens_tab, wsTokens_lf,
          wsTokens_space] at hf ⊢
        simp only [List.length_cons] at hf
        simp only [parseGo, parseIoArm]
        rw [ih f σ ρ hinv hrr (by omega)]
        rfl
      | WBGetNumber =>
        simp only [genInst, List.cons_append, List.nil_append, wsTokens_tab, wsTokens_lf] at hf ⊢
        simp only [List.length_cons] at hf
        simp only [parseGo, parseIoArm]
        rw [ih f σ ρ hinv hrr (by omega)]
        rfl

/-! The disassembly of assembled bytecode. -/

theorem length_le_assembleAll (S : List Instruction) :
    S.length ≤ (assembleAll S).length := by
  induction S with
  | nil => simp [assembleAll]
  | cons i rest ih =>
    have h1 : 1 ≤ (encodeInst i).length := by
      cases i <;> simp [encodeInst, beBytes8]
    have h2 : assembleAll (i :: rest) = encodeInst i ++ assembleAll rest := by
      simp [assembleAll]
    rw [h2]
    simp only [List.length_append, List.length_cons]
    omega

theorem disassembleGo_assembled (S : List Instruction) :
    ∀ (pre : List Nat) (fuel : Nat), (∀ i ∈ S, operandOK i) → S.length < fuel →
      disassembleGo fuel (pre ++ assembleAll S) pre.length = .ok S := by
  induction S with
  | nil =>
    intro pre fuel _ hf
    cases fuel with
    | zero => omega
    | succ f =>
      simp only [disassembleGo]
      rw [show assembleAll [] = [] from rfl, List.append_nil, readInst_atEnd]
  | cons i rest ih =>
    intro pre fuel h hf
    cases fuel with
    | zero => omega
    | succ f =>
      have hi : operandOK i := h i (by simp)
      have hr := readInst_shift_ok pre (encodeInst i ++ assembleAll rest) _ _ _
        (readInst_enc i hi (assembleAll rest))
      rw [show assembleAll (i :: rest) = encodeInst i ++ assembleAll rest from
        by simp [assembleAll]]
      simp only [disassembleGo]
      rw [hr]
      simp only [instFromRecord_enc]
      have hlen : pre.length + (encodeInst i).length = (pre ++ encodeInst i).length := by
        simp
      rw [hlen, ← List.append_assoc,
        ih (pre ++ encodeInst i) f (fun j hj => h j (by simp [hj]))
          (by simp only [List.length_cons] at hf; omega)]
      rfl

/-- Disassembling assembled bytecode recovers the instruction sequence. -/
theorem disassembleAll_assembleAll (S : List Instruction)
    (h : ∀ i ∈ S, operandOK i) : disassembleAll (assembleAll S) = .ok S := by
  have hl := length_le_assembleAll S
  have := disassembleGo_assembled S [] ((assembleAll S).length + 1) h (by omega)
  simpa [disassembleAll] using this

set_option maxRecDepth 100000 in
/-- Counterexample to claim C4 as stated, at S = [Push(-2^63)]: the
decompiled sign-magnitude text carries magnitude 2^63, which overflows
i64 on re-parse, so the re-parse is an invalid-input error and equals no
instruction sequence under any label comparison. -/
theorem ws_roundtrip_min_cx :
    (decompileText (assembleAll [WBPush (-(2 ^ 63))])).map
        (fun text => parseWS (wsTokens text)) = .ok (.error .invalidInput) ∧
      (Except.ok (Except.error ParseErr.invalidInput) :
          Except IoErr (Except ParseErr (List Instruction))) ≠
        .ok (.ok [WBPush (-(2 ^ 63))]) := by
  constructor
  · rfl
  · simp

/-- Claim C4 (amended): for every IR sequence S whose numeric operands
(of Push, Copy, Slide) lie strictly between -2^63 and 2^63 and whose
label operands are representable i64 values (-2^63 included, since labels
are interned as digit strings and never decoded as integers), compiling S
to bytecode and decompiling via the Whitespace back-end yields text whose
re-parse by the Whitespace front-end equals S with labels compared by
identity assignment order (each label replaced by its order of first
appearance, counting from 1). The excluded numeric operand -2^63
decompiles to sign-magnitude text of magnitude 2^63 that re-parses with
an invalid-input error. -/
theorem ws_compile_decompile_roundtrip (S : List Instruction)
    (hS : ∀ i ∈ S, roundtripOperandOK i) :
    (decompileText (assembleAll S)).map (fun text => parseWS (wsTokens text)) =
      .ok (.ok (relabelList S)) := by
  unfold decompileText
  rw [disassembleAll_assembleAll S
    (fun i hi => roundtrip_to_operandOK i (hS i hi))]
  simp only [Except.map]
  unfold parseWS relabelList
  rw [parseGo_genText S ((wsTokens (genText S)).length + 1)
    { labels := [], cnt := 1 } { table := [], cnt := 1 } ⟨rfl, rfl⟩ hS (by omega)]

/-- Witness for C4's amended claim at a concrete sequence whose label
-2^63 (legal as a label) is reassigned id 1 and whose label 7 is
reassigned id 2. -/
theorem ws_compile_decompile_roundtrip_witness :
    (decompileText (assembleAll [WBPush (-3), WBMark (-(2 ^ 63)), WBMark 7,
        WBJump (-(2 ^ 63)), WBExit])).map
        (fun text => parseWS (wsTokens text)) =
      .ok (.ok [WBPush (-3), WBMark 1, WBMark 2, WBJump 1, WBExit]) :=
  (ws_compile_decompile_roundtrip
    [WBPush (-3), WBMark (-(2 ^ 63)), WBMark 7, WBJump (-(2 ^ 63)), WBExit]
    (by decide)).trans (by rfl)

/-- Counterexample to claim C7 as stated: the Whitespace source SSSN
(Push whose sign is immediately followed by LF, an empty bit sequence)
does not parse to Push(0); the whole parse fails with the invalid-input
error raised by the failed number decode. -/
theorem empty_bits_cx :
    parseWS (wsTokens [' ', ' ', ' ', '\n']) = .error .invalidInput ∧
      (Except.error ParseErr.invalidInput :
          Except ParseErr (List Instruction)) ≠ .ok [WBPush 0] := by
  constructor
  · rfl
  · simp

/-- Claim C7 (amended): a number operand whose bit sequence is empty (a
sign token immediately followed by LF) is rejected with an invalid-input
error, because the integer decoder rejects the empty digit string; zero
is parsed from the one-bit sequence Space. -/
theorem empty_bits_amended (rest : List WSTok) :
    parseNumber (.space :: .lf :: rest) = .error .invalidInput ∧
    parseNumber (.tab :: .lf :: rest) = .error .invalidInput ∧
    parseNumber (.space :: .space :: .lf :: rest) = .ok (0, rest) :=
  ⟨rfl, rfl, rfl⟩

/-! The Brainfuck front-end (src/syntax/brainfuck.rs). -/

def BF_FAIL_MARKER : Int := -1

def BF_PTR_ADDR : Int := -1

/-- Brainfuck tokens (the eight significant characters; the scanner skips
everything else). -/
inductive BFTok
  | moveRight
  | moveLeft
  | increment
  | decrement
  | put
  | get
  | loopStart
  | loopEnd
deriving DecidableEq, Repr

def bfTokOfChar (c : Char) : Option BFTok :=
  if c = '>' then some .moveRight
  else if c = '<' then some .moveLeft
  else if c = '+' then some .increment
  else if c = '-' then some .decrement
  else if c = ',' then some .get
  else if c = '.' then some .put
  else if c = '[' then some .loopStart
  else if c = ']' then some .loopEnd
  else none

def bfTokens (cs : List Char) : List BFTok := cs.filterMap bfTokOfChar

/-- Brainfuck parse error (broken loop: unmatched closing bracket). -/
inductive BFErr
  | brokenLoop
deriving DecidableEq, Repr

/-- Brainfuck parser state: the lexical loop stack, the loop counter
(Parser.lcount, from 1), and the local label intern table with its
counter (the labels map and count of Parser::parse, from 1). -/
structure BFState where
  stack : List Int
  lcount : Int
  labels : List (List Char × Int)
  count : Int
deriving DecidableEq, Repr

/-- The marker closure of Parser::parse (brainfuck.rs lines 96-105):
intern a synthesized label string, allocating the next id on first
sight. -/
def bfMarker (st : BFState) (key : List Char) : Int × BFState :=
  match assocFind st.labels key with
  | some v => (v, st)
  | none =>
    (st.count, { st with labels := (key, st.count) :: st.labels,
                         count := st.count + 1 })

/-- Parser::parse for Brainfuck (lines 93-186): lower each token to its
IR macro (heap address -1 is the tape pointer cell); after the last token
emit Exit and Mark(FAIL). The Get arm is the macro the code actually
emits: Push(-1); Retrieve; Retrieve; GetChar. -/
def bfParseGo : List BFTok → BFState → Except BFErr (List Instruction)
  | [], _ => .ok [WBExit, WBMark BF_FAIL_MARKER]
  | t :: rest, st =>
    match t with
    | .moveRight =>
      (bfParseGo rest st).map
        (fun r => [WBPush BF_PTR_ADDR, WBDuplicate, WBRetrieve, WBPush 1,
          WBAddition, WBStore] ++ r)
    | .moveLeft =>
      (bfParseGo rest st).map
        (fun r => [WBPush BF_PTR_ADDR, WBDuplicate, WBRetrieve, WBPush 1,
          WBSubtraction, WBDuplicate, WBJumpIfNegative BF_FAIL_MARKER,
          WBStore] ++ r)
    | .increment =>
      (bfParseGo rest st).map
        (fun r => [WBPush BF_PTR_ADDR, WBRetrieve, WBDuplicate, WBRetrieve,
          WBPush 1, WBAddition, WBStore] ++ r)
    | .decrement =>
      (bfParseGo rest st).map
        (fun r => [WBPush BF_PTR_ADDR, WBRetrieve, WBDuplicate, WBRetrieve,
          WBPush 1, WBSubtraction, WBStore] ++ r)
    | .get =>
      (bfParseGo rest st).map
        (fun r => [WBPush BF_PTR_ADDR, WBRetrieve, WBRetrieve,
          WBGetCharactor] ++ r)
    | .put =>
      (bfParseGo rest st).map
        (fun r => [WBPush BF_PTR_ADDR, WBRetrieve, WBRetrieve,
          WBPutCharactor] ++ r)
    | .loopStart =>
      let l := st.lcount
      let st1 : BFState := { st with lcount := st.lcount + 1,
                                     stack := l :: st.stack }
      let p1 := bfMarker st1 (intDecChars l ++ ['#'])
      let p2 := bfMarker p1.2 ('#' :: intDecChars l)
      (bfParseGo rest p2.2).map
        (fun r => [WBMark p1.1, WBPush BF_PTR_ADDR, WBRetrieve, WBRetrieve,
          WBJumpIfZero p2.1] ++ r)
    | .loopEnd =>
      match st.stack with
      | [] => .error .brokenLoop
      | l :: srest =>
        let st1 : BFState := { st with stack := srest }
        let p1 := bfMarker st1 (intDecChars l ++ ['#'])
        let p2 := bfMarker p1.2 ('#' :: intDecChars l)
        (bfParseGo rest p2.2).map (fun r => [WBJump p1.1, WBMark p2.1] ++ r)

/-- Brainfuck::parse on a fresh parser. -/
def bfParse (toks : List BFTok) : Except BFErr (List Instruction) :=
  bfParseGo toks { stack := [], lcount := 1, labels := [], count := 1 }

set_option maxRecDepth 100000 in
/-- Claim C8 (the code bug, evaluated): the macro the compiler emits for
a comma token is Push(-1); Retrieve; Retrieve; GetChar — a second
Retrieve replaces the tape cell's address by the cell's value, so
GetChar's implicit Store writes the read character to the heap at the
cell's value instead of into the cell. Running the compiled program for
source "+++++," on input 'A' leaves cell 0 still holding 5 and deposits
65 at heap address 5. -/
theorem bf_get_macro_bug :
    bfParse (bfTokens [',']) =
      .ok [WBPush (-1), WBRetrieve, WBRetrieve, WBGetCharactor,
        WBExit, WBMark (-1)] ∧
    (bfParse (bfTokens ("+++++,".toList))).map
        (fun S => (runFuel 64 (assembleAll S) (initState ['A'])).map
          (fun r => (mapFind r.1.heap 0, mapFind r.1.heap 5, r.2))) =
      .ok (some (some 5, some 65, .ok)) := by
  constructor
  · rfl
  · rfl

end Whitebase
